import Mathlib

/-!
Verification of the giganto storage and ingest layers.

Shallow embedding of the relevant parts of `src/storage.rs`, `src/ingest.rs`
and `src/peer.rs`.  Byte strings are `List Nat` (each element one byte),
machine integers are `Int`/`Nat` with explicit reduction modulo `2 ^ 64`
where the code relies on two's-complement wrap.
-/

namespace Giganto

/-! ### Byte strings and Rust slice comparison

Rust's `[u8]::cmp` is lexicographic: element-wise comparison, with the
shorter slice comparing as less when it is a proper prefix of the other.
-/

/-- Lexicographic three-way comparison of byte strings, the embedding of
`key.as_ref().cmp(&self.boundary)` on `&[u8]` in `src/storage.rs`. -/
def bytesCmp : List Nat → List Nat → Ordering
  | [], [] => Ordering.eq
  | [], _ :: _ => Ordering.lt
  | _ :: _, [] => Ordering.gt
  | a :: as, b :: bs =>
    if a < b then Ordering.lt
    else if b < a then Ordering.gt
    else bytesCmp as bs

theorem bytesCmp_append_left (xs : List Nat) (a b : List Nat) :
    bytesCmp (xs ++ a) (xs ++ b) = bytesCmp a b := by
  induction xs with
  | nil => rfl
  | cons x xs ih =>
    simp only [List.cons_append, bytesCmp, lt_irrefl, if_false]
    exact ih

theorem bytesCmp_nil_lt (l : List Nat) (h : l ≠ []) : bytesCmp [] l = Ordering.lt := by
  cases l with
  | nil => exact absurd rfl h
  | cons y ys => rfl

theorem bytesCmp_self_append (xs : List Nat) (zs : List Nat) (h : zs ≠ []) :
    bytesCmp xs (xs ++ zs) = Ordering.lt := by
  have h1 : bytesCmp (xs ++ []) (xs ++ zs) = bytesCmp [] zs := bytesCmp_append_left xs [] zs
  rw [List.append_nil] at h1
  rw [h1]
  exact bytesCmp_nil_lt zs h

/-- A strictly smaller byte string stays strictly smaller after the larger
side is extended on the right. -/
theorem bytesCmp_lt_append_right {a b : List Nat} (s : List Nat)
    (h : bytesCmp a b = Ordering.lt) : bytesCmp a (b ++ s) = Ordering.lt := by
  induction a generalizing b with
  | nil =>
    cases b with
    | nil => simp [bytesCmp] at h
    | cons y ys => rfl
  | cons x xs ih =>
    cases b with
    | nil => simp [bytesCmp] at h
    | cons y ys =>
      simp only [bytesCmp, List.cons_append] at h ⊢
      by_cases hxy : x < y
      · simp [hxy]
      · simp only [hxy, if_false] at h ⊢
        by_cases hyx : y < x
        · simp [hyx] at h
        · simp only [hyx, if_false] at h ⊢
          exact ih h

/-- A strictly smaller byte string that is at least as long as the larger
side stays strictly smaller after being extended on the right. -/
theorem bytesCmp_lt_append_left {a b : List Nat} (s : List Nat)
    (h : bytesCmp a b = Ordering.lt) (hlen : b.length ≤ a.length) :
    bytesCmp (a ++ s) b = Ordering.lt := by
  induction a generalizing b with
  | nil =>
    cases b with
    | nil => simp [bytesCmp] at h
    | cons y ys => simp at hlen
  | cons x xs ih =>
    cases b with
    | nil => simp [bytesCmp] at h
    | cons y ys =>
      simp only [bytesCmp, List.cons_append] at h ⊢
      by_cases hxy : x < y
      · simp [hxy]
      · simp only [hxy, if_false] at h ⊢
        by_cases hyx : y < x
        · simp [hyx] at h
        · simp only [hyx, if_false] at h ⊢
          exact ih h (by simpa using hlen)

/-! ### Fixed-width big-endian encodings -/

/-- Big-endian base-256 digits of `n`, `w` bytes wide; the embedding of
`to_be_bytes` on the unsigned value. -/
def beBytesNat : Nat → Nat → List Nat
  | 0, _ => []
  | w + 1, n => n / 256 ^ w :: beBytesNat w (n % 256 ^ w)

theorem beBytesNat_length (w n : Nat) : (beBytesNat w n).length = w := by
  induction w generalizing n with
  | zero => rfl
  | succ w ih => simp [beBytesNat, ih]

theorem beBytesNat_ne_nil (w n : Nat) (h : 0 < w) : beBytesNat w n ≠ [] := by
  intro hnil
  have := beBytesNat_length w n
  rw [hnil] at this
  simp at this
  omega

/-- Fixed-width big-endian encoding is strictly monotone on values that fit
in the width. -/
theorem beBytesNat_lt {w n m : Nat} (hnm : n < m) (hm : m < 256 ^ w) :
    bytesCmp (beBytesNat w n) (beBytesNat w m) = Ordering.lt := by
  induction w generalizing n m with
  | zero =>
    simp at hm
    omega
  | succ w ih =>
    simp only [beBytesNat, bytesCmp]
    have hB : 0 < 256 ^ w := Nat.pos_pow_of_pos w (by norm_num)
    by_cases hq : n / 256 ^ w < m / 256 ^ w
    · simp [hq]
    · have hql : n / 256 ^ w ≤ m / 256 ^ w := Nat.div_le_div_right (Nat.le_of_lt hnm)
      have hqeq : n / 256 ^ w = m / 256 ^ w := by omega
      simp only [hq, if_false, hqeq, lt_irrefl, if_false]
      have hdn := Nat.div_add_mod n (256 ^ w)
      have hdm := Nat.div_add_mod m (256 ^ w)
      have hrn : n % 256 ^ w < 256 ^ w := Nat.mod_lt n hB
      have hrm : m % 256 ^ w < 256 ^ w := Nat.mod_lt m hB
      have hr : n % 256 ^ w < m % 256 ^ w := by
        rw [hqeq] at hdn
        omega
      exact ih hr hrm

/-- Two's-complement 8-byte big-endian encoding of an `i64`, the embedding
of `i64::to_be_bytes`. -/
def i64ToBeBytes (t : Int) : List Nat :=
  beBytesNat 8 (t % (2 : Int) ^ 64).toNat

theorem i64ToBeBytes_of_nonneg {t : Int} (h0 : 0 ≤ t) (h1 : t < 2 ^ 63) :
    i64ToBeBytes t = beBytesNat 8 t.toNat := by
  unfold i64ToBeBytes
  congr 1
  have hlt : t < (2 : Int) ^ 64 := by
    have : (2 : Int) ^ 63 < 2 ^ 64 := by norm_num
    omega
  rw [Int.emod_eq_of_lt h0 hlt]

theorem i64ToBeBytes_lt {t1 t2 : Int} (h0 : 0 ≤ t1) (h12 : t1 < t2) (h2 : t2 < 2 ^ 63) :
    bytesCmp (i64ToBeBytes t1) (i64ToBeBytes t2) = Ordering.lt := by
  rw [i64ToBeBytes_of_nonneg h0 (lt_trans h12 h2),
      i64ToBeBytes_of_nonneg (le_of_lt (lt_of_le_of_lt h0 h12)) h2]
  have hn : t1.toNat < t2.toNat := by omega
  have hm : t2.toNat < 256 ^ 8 := by
    have h : t2.toNat < 2 ^ 63 := by omega
    calc t2.toNat < 2 ^ 63 := h
    _ < 256 ^ 8 := by norm_num
  exact beBytesNat_lt hn hm

theorem i64ToBeBytes_length (t : Int) : (i64ToBeBytes t).length = 8 :=
  beBytesNat_length 8 _

theorem i64ToBeBytes_ne_nil (t : Int) : i64ToBeBytes t ≠ [] :=
  beBytesNat_ne_nil 8 _ (by norm_num)

/-- Signed value of an 8-byte big-endian key suffix, the embedding of
`i64::from_be_bytes` as used by the retention sweeper. -/
def i64FromBeBytes (bs : List Nat) : Int :=
  let n : Nat := bs.foldl (fun acc b => acc * 256 + b) 0
  if n < 2 ^ 63 then (n : Int) else (n : Int) - 2 ^ 64

/-- Embedding of `i64::checked_sub`: `none` exactly when the subtraction
leaves the `i64` range. -/
def i64CheckedSub (a b : Int) : Option Int :=
  if a - b < -(2 ^ 63) ∨ 2 ^ 63 ≤ a - b then none else some (a - b)

/-! ### storage.rs: range-scan bound keys

`lower_bound_key` and `upper_bound_key` from `src/storage.rs` lines
215-245.  A `DateTime<Utc>` is represented by its nanosecond timestamp
(`time.timestamp_nanos()`), an `i64`.
-/

/-- Embedding of `lower_bound_key` (`src/storage.rs:217`): the prefix, a NUL,
and — when a time is given whose predecessor nanosecond is representable and
nonnegative — the 8-byte big-endian encoding of that predecessor. -/
def lower_bound_key (p : List Nat) (time : Option Int) : List Nat :=
  let lb := p ++ [0]
  match time with
  | none => lb
  | some ns =>
    match i64CheckedSub ns 1 with
    | none => lb
    | some ns1 => if 0 ≤ ns1 then lb ++ i64ToBeBytes ns1 else lb

/-- Embedding of `upper_bound_key` (`src/storage.rs:234`): prefix, NUL and the
8-byte timestamp when a time is given, otherwise prefix followed by the
`0x01` sentinel. -/
def upper_bound_key (p : List Nat) (time : Option Int) : List Nat :=
  match time with
  | none => p ++ [1]
  | some ns => p ++ [0] ++ i64ToBeBytes ns

theorem lower_bound_key_of_pos {t : Int} (p : List Nat) (h1 : 1 ≤ t) (h2 : t < 2 ^ 63) :
    lower_bound_key p (some t) = p ++ [0] ++ i64ToBeBytes (t - 1) := by
  unfold lower_bound_key i64CheckedSub
  have hc : ¬(t - 1 < -(2 ^ 63) ∨ 2 ^ 63 ≤ t - 1) := by omega
  simp only [hc, if_false, List.append_assoc]
  rw [if_pos (by omega)]

theorem lower_bound_key_of_nonpos {t : Int} (p : List Nat) (h : t ≤ 0) (hr : -(2 ^ 63) ≤ t) :
    lower_bound_key p (some t) = p ++ [0] := by
  simp only [lower_bound_key, i64CheckedSub]
  by_cases hc : t - 1 < -(2 ^ 63 : Int) ∨ (2 ^ 63 : Int) ≤ t - 1
  · rw [if_pos hc]
  · rw [if_neg hc]
    simp [show ¬(0 : Int) ≤ t - 1 by omega]

/-! ### storage.rs: the bounded iterator `Iter`

`Iter` (`src/storage.rs:256-298`) wraps a RocksDB scan started at `from`
with `IteratorMode::From(from, direction)` and a `boundary` byte string.
Its `next` stops — returning no item, not an error — the first time a
successfully read key compares to the boundary with the `Ordering` selected
by the direction; engine errors are passed through as `Err` items and a
value is deserialised on demand.
-/

inductive Direction where
  | forward
  | reverse
deriving DecidableEq, Repr

/-- The stop condition selected in `Iter::new` (`src/storage.rs:262-265`):
`Forward` maps to `Ordering::Less` and `Reverse` to `Ordering::Greater`. -/
def iterCond : Direction → Ordering
  | Direction.forward => Ordering.lt
  | Direction.reverse => Ordering.gt

/-- Model of RocksDB `IteratorMode::From(start, direction)` over the stored
entries of a column family, given as an ascending association list: forward
scans every entry with key at least `start` in ascending order, reverse
scans every entry with key at most `start` in descending order. -/
def dbScanFrom (entries : List (List Nat × List Nat)) (start : List Nat) :
    Direction → List (List Nat × List Nat)
  | Direction.forward => entries.filter (fun e => !(bytesCmp e.1 start == Ordering.lt))
  | Direction.reverse => (entries.filter (fun e => !(bytesCmp e.1 start == Ordering.gt))).reverse

/-- Embedding of `Iter::next` (`src/storage.rs:282-297`) iterated to
exhaustion: an engine error is yielded as an `Err` item and iteration goes
on; a read entry is checked against the boundary — on a hit the iteration
stops, otherwise the value is deserialised, a failure being yielded as an
`Err` item. -/
def iterCollect {α : Type} (deser : List Nat → Except Nat α) (boundary : List Nat)
    (cond : Ordering) :
    List (Except Nat (List Nat × List Nat)) → List (Except Nat (List Nat × α))
  | [] => []
  | Except.error e :: rest => Except.error e :: iterCollect deser boundary cond rest
  | Except.ok (k, v) :: rest =>
    if bytesCmp k boundary = cond then []
    else
      (match deser v with
       | Except.ok a => Except.ok (k, a)
       | Except.error e => Except.error e) :: iterCollect deser boundary cond rest

/-- Embedding of the `conn_iter`/`dns_iter`/`http_iter`/`log_iter`/`rdp_iter`
constructions (`src/storage.rs:131-199`): an error-free scan from `fromKey`
fed to `Iter` with boundary `toKey`. -/
def rangeIter {α : Type} (deser : List Nat → Except Nat α)
    (entries : List (List Nat × List Nat)) (fromKey toKey : List Nat) (d : Direction) :
    List (Except Nat (List Nat × α)) :=
  iterCollect deser toKey (iterCond d) ((dbScanFrom entries fromKey d).map Except.ok)

/-- Identity deserialiser used to evaluate the iterator on concrete inputs. -/
def deserId : List Nat → Except Nat (List Nat) := fun v => Except.ok v

/-! ### storage.rs: retention sweeper

`retain_periodically` (`src/storage.rs:310-359`).  One tick computes the
cutoff and, per sensor, issues one range delete on every non-log store and
a prefix scan with per-key deletes on the log store.  Each fallible delete
is modelled against a failure oracle; a failure is only logged, so the
sweep itself always continues.
-/

/-- The sensor-key-plus-61-seconds lower edge of the sweep range
(`from_timestamp`, `src/storage.rs:317-320` and 330-332). -/
def retainFrom (source : List Nat) : List Nat :=
  source ++ [0] ++ i64ToBeBytes (61 * 1000000000)

/-- The sensor-key-plus-cutoff upper edge of the sweep range
(`src/storage.rs:334-336`). -/
def retainTo (source : List Nat) (cutoff : Int) : List Nat :=
  source ++ [0] ++ i64ToBeBytes cutoff

/-- RocksDB `delete_range_cf(from, to)`: removes every key in `[from, to)`. -/
def deleteRange (keys : List (List Nat)) (lo hi : List Nat) : List (List Nat) :=
  keys.filter (fun k => !(decide (bytesCmp k lo ≠ Ordering.lt ∧ bytesCmp k hi = Ordering.lt)))

/-- One sweep tick over the non-log stores (`src/storage.rs:338-342`): for
each sensor a range delete `[sensor\0 61s, sensor\0 cutoff)` is attempted;
a failing attempt (per the `rangeFails` oracle) is only logged and the
sweep continues with the next sensor. -/
def retainRangeSweep (rangeFails : List Nat → Bool) (keys : List (List Nat))
    (sources : List (List Nat)) (cutoff : Int) : List (List Nat) :=
  sources.foldl
    (fun acc s => if rangeFails s then acc else deleteRange acc (retainFrom s) (retainTo s cutoff))
    keys

/-- The per-sensor deletion condition used on the log store
(`src/storage.rs:344-352`): the key carries the sensor as a byte prefix and
its trailing 8 bytes decode to a timestamp strictly below the cutoff. -/
def logSweepTarget (source : List Nat) (cutoff : Int) (k : List Nat) : Bool :=
  source.isPrefixOf k && decide (i64FromBeBytes (k.drop (k.length - 8)) < cutoff)

/-- One sensor's pass over the log store (`src/storage.rs:344-357`): the
prefix scan selects the stale keys and each is deleted individually; a
failing delete (per the `fails` oracle) is only logged and the pass
continues with the remaining keys. -/
def logStoreSweep (fails : List Nat → Bool) (logKeys : List (List Nat))
    (source : List Nat) (cutoff : Int) : List (List Nat) :=
  ((logKeys.filter (fun k => source.isPrefixOf k)).filter
      (fun k => decide (i64FromBeBytes (k.drop (k.length - 8)) < cutoff))).foldl
    (fun acc t => if fails t then acc else acc.filter (fun k => !(k == t)))
    logKeys

/-- One full sweep tick over the log store (`src/storage.rs:329-358`): the
per-sensor pass is run for every sensor in the roster. -/
def retainLogSweep (fails : List Nat → Bool) (logKeys : List (List Nat))
    (sources : List (List Nat)) (cutoff : Int) : List (List Nat) :=
  sources.foldl (fun acc s => logStoreSweep fails acc s cutoff) logKeys

/-! ### ingest.rs: the per-sub-stream dispatcher `handle_data`

`handle_data` (`src/ingest.rs:726-901`) receives framed records on one
sub-stream, composes a storage key by record kind, appends, publishes to
the direct-stream bus when the kind has a network key, and drives the
cumulative-ack state (`ack_cnt`, `ack_time`).  A separate interval task
(`src/ingest.rs:761-781`) emits an ack at each 60-second tick when the
shared last timestamp is not the `NO_TIMESTAMP` sentinel (0).

A received record is modelled after deserialisation as `RecordData`; the
constructor records the deserialised fields that participate in key
composition, and `plain` stands for every kind handled by the default arm
of the `key_builder` match.
-/

inductive RecordData where
  | log (logKind payload : List Nat)
  | timeSeries (seriesId payload : List Nat)
  | opLog (agentName payload : List Nat)
  | packet (packetTimestamp : Int) (payload : List Nat)
  | statistics (core : Nat) (payload : List Nat)
  | secuLog (secuKind secuSource payload : List Nat)
  | plain (payload : List Nat)
deriving DecidableEq

/-- Modelled from the spec: the fluent `StorageKey` builder referenced by
`src/ingest.rs` (`StorageKey::builder().start_key(..).mid_key(..).end_key(..)`)
is not among the given sources.  Per the spec's key-builder contract and key
schema, `build` concatenates the start segment, a NUL separator, the
optional mid segment followed by its NUL separator, and the 8-byte
big-endian end timestamp. -/
def storageKeyBuild (startKey : List Nat) (midKey : Option (List Nat)) (endTs : Int) :
    List Nat :=
  startKey ++ [0] ++ (match midKey with | none => [] | some m => m ++ [0]) ++ i64ToBeBytes endTs

/-- The `key_builder` match of `handle_data` (`src/ingest.rs:791-841`): key
composition by record kind.  `64` is the byte of the `@` joining agent and
sensor for operational logs; a statistics core id is a `u32`, encoded
big-endian on 4 bytes. -/
def handleDataKey (source : List Nat) (ts : Int) : RecordData → List Nat
  | RecordData.log k _ => storageKeyBuild source (some k) ts
  | RecordData.timeSeries sid _ => storageKeyBuild sid none ts
  | RecordData.opLog agent _ => storageKeyBuild (agent ++ [64] ++ source) none ts
  | RecordData.packet pts _ => storageKeyBuild source (some (i64ToBeBytes ts)) pts
  | RecordData.statistics core _ => storageKeyBuild source (some (beBytesNat 4 core)) ts
  | RecordData.secuLog sk _ _ => storageKeyBuild sk none ts
  | RecordData.plain _ => storageKeyBuild source none ts

/-- The body actually stored by `handle_data`: a security log is rewritten so
that its source field is the connection-derived sensor name
(`src/ingest.rs:831-834`); every other record is stored as received. -/
def handleDataStored (source : List Nat) : RecordData → RecordData
  | RecordData.secuLog sk _ payload => RecordData.secuLog sk source payload
  | r => r

/-- The byte string of the literal `channel done` (`CHANNEL_CLOSE_MESSAGE`,
`src/ingest.rs:52`). -/
def channelCloseMessage : List Nat := [99, 104, 97, 110, 110, 101, 108, 32, 100, 111, 110, 101]

/-- State shared by the dispatcher loop and its interval task: the rotation
counter `ack_cnt` (a `u16`), the last-seen timestamp `ack_time`
(`NO_TIMESTAMP = 0` initially), the appended store entries and the
direct-stream publications. -/
structure HDState where
  ackCnt : Nat
  ackTime : Int
  store : List (List Nat × RecordData)
  published : List (Int × RecordData)
deriving DecidableEq

/-- Observable output of one dispatcher or interval-task step: acks sent on
the stream, column-family flushes, interval-timer resets (the
`ack_time_notify` signal) and whether the step aborted the stream. -/
structure HDStepOut where
  state : HDState
  acks : List Int
  flushes : Nat
  intervalReset : Bool
  errored : Bool
deriving DecidableEq

/-- One iteration of the receive loop of `handle_data`
(`src/ingest.rs:782-897`) on a received `(raw_event, timestamp)`: the
`channel done` sentinel at timestamp `-1` is acked immediately and nothing
else changes; otherwise the record is decoded, rewritten if a security log,
appended under its composed key, published when the stream has a network
key, the rotation counter is bumped (wrapping as a `u16`) and the last
timestamp stored, and on reaching `ACK_ROTATION_CNT = 1024` one ack is
sent, the counter cleared, the interval timer reset and the store
flushed. -/
def recvStep (decode : List Nat → Except Nat RecordData) (hasNetworkKey : Bool)
    (source : List Nat) (st : HDState) (ts : Int) (body : List Nat) : HDStepOut :=
  if ts = -1 ∧ body = channelCloseMessage then
    { state := st, acks := [ts], flushes := 0, intervalReset := false, errored := false }
  else
    match decode body with
    | Except.error _ =>
      { state := st, acks := [], flushes := 0, intervalReset := false, errored := true }
    | Except.ok r =>
      let stored := handleDataStored source r
      let key := handleDataKey source ts r
      let st1 : HDState :=
        { st with
          store := st.store ++ [(key, stored)]
          published := st.published ++ (if hasNetworkKey then [(ts, stored)] else []) }
      let cnt1 := (st1.ackCnt + 1) % 65536
      let st2 : HDState := { st1 with ackCnt := cnt1, ackTime := ts }
      if 1024 ≤ cnt1 then
        { state := { st2 with ackCnt := 0 }, acks := [ts], flushes := 1,
          intervalReset := true, errored := false }
      else
        { state := st2, acks := [], flushes := 0, intervalReset := false, errored := false }

/-- One 60-second tick of the interval task (`src/ingest.rs:764-774`): when
the shared last timestamp differs from `NO_TIMESTAMP = 0` an ack of it is
sent and the rotation counter cleared; the last timestamp itself is left in
place. -/
def tickStep (st : HDState) : HDStepOut :=
  if st.ackTime ≠ 0 then
    { state := { st with ackCnt := 0 }, acks := [st.ackTime], flushes := 0,
      intervalReset := false, errored := false }
  else
    { state := st, acks := [], flushes := 0, intervalReset := false, errored := false }

/-- Events of one sub-stream interleaving received records with interval
ticks. -/
inductive HDEvent where
  | recv (ts : Int) (body : List Nat)
  | tick
deriving DecidableEq

/-- Run of the dispatcher over an event trace, collecting the acks sent in
order. -/
def hdRun (decode : List Nat → Except Nat RecordData) (hasNetworkKey : Bool)
    (source : List Nat) : HDState → List HDEvent → HDState × List Int
  | st, [] => (st, [])
  | st, e :: es =>
    let out :=
      match e with
      | HDEvent.recv ts body => recvStep decode hasNetworkKey source st ts body
      | HDEvent.tick => tickStep st
    let rest := hdRun decode hasNetworkKey source out.state es
    (rest.1, out.acks ++ rest.2)

/-- Initial dispatcher state: counter 0, last timestamp `NO_TIMESTAMP`,
nothing stored or published. -/
def hdInit : HDState := { ackCnt := 0, ackTime := 0, store := [], published := [] }

/-- Decoder of a stream kind whose records need no field for key
composition: everything decodes to the default (`plain`) shape. -/
def decodePlain : List Nat → Except Nat RecordData := fun bs => Except.ok (RecordData.plain bs)

/-! ### ingest.rs: the sensor-roster controller `check_sources_conn` -/

inductive ConnState where
  | connected
  | disconnected
deriving DecidableEq

/-- Roster state of `check_sources_conn` (`src/ingest.rs:914-970`): the live
sources map, membership in the packet-connection map, and the persistent
`sources` column family. -/
structure SourcesState where
  sources : List Nat → Option Int
  packetSources : List Nat → Bool
  sourceStore : List Nat → Option Int

/-- Processing of one `SourceInfo` event by `check_sources_conn`
(`src/ingest.rs:941-967`): the persistent store is written on every event;
for a non-replay event the live maps are updated — insert on connect,
remove from both the live sources map and the packet-connection map on
disconnect. -/
def checkSourcesConnStep (st : SourcesState) (sourceKey : List Nat) (ts : Int)
    (conn : ConnState) (rep : Bool) : SourcesState :=
  match conn with
  | ConnState.connected =>
    let st1 : SourcesState :=
      { st with sourceStore := fun x => if x = sourceKey then some ts else st.sourceStore x }
    if rep then st1
    else { st1 with sources := fun x => if x = sourceKey then some ts else st.sources x }
  | ConnState.disconnected =>
    let st1 : SourcesState :=
      { st with sourceStore := fun x => if x = sourceKey then some ts else st.sourceStore x }
    if rep then st1
    else
      { st1 with
        sources := fun x => if x = sourceKey then none else st.sources x
        packetSources := fun x => if x = sourceKey then false else st.packetSources x }

/-! ### peer.rs: dial-failure handling in `client_connection` -/

/-- The transport `ConnectionError` variants (`quinn::ConnectionError`). -/
inductive ConnectionError where
  | versionMismatch
  | transportError
  | connectionClosed
  | applicationClosed
  | reset
  | timedOut
  | locallyClosed
deriving DecidableEq

/-- A failed dial attempt either carries a transport `ConnectionError` or
is some other error (the downcast in `client_connection` fails). -/
inductive DialError where
  | conn (e : ConnectionError)
  | other
deriving DecidableEq

/-- What the dial task does after a failed attempt. -/
inductive DialOutcome where
  | retryAfterSleep (secs : Nat)
  | retryImmediately
  | terminate
deriving DecidableEq

/-- The retry interval `PEER_RETRY_INTERVAL` (`src/peer.rs:41`). -/
def PEER_RETRY_INTERVAL : Nat := 5

/-- The `Err` arm of the dial loop of `client_connection`
(`src/peer.rs:365-385`): the four listed `ConnectionError` variants sleep
`PEER_RETRY_INTERVAL` seconds and `continue` the connection loop; any other
`ConnectionError` falls through the inner `_ => {}` arm, reaching the end of
the loop body, so the loop runs again at once; an error that is not a
`ConnectionError` returns from the task. -/
def clientDialErrorOutcome : DialError → DialOutcome
  | DialError.conn ConnectionError.connectionClosed =>
    DialOutcome.retryAfterSleep PEER_RETRY_INTERVAL
  | DialError.conn ConnectionError.applicationClosed =>
    DialOutcome.retryAfterSleep PEER_RETRY_INTERVAL
  | DialError.conn ConnectionError.reset => DialOutcome.retryAfterSleep PEER_RETRY_INTERVAL
  | DialError.conn ConnectionError.timedOut => DialOutcome.retryAfterSleep PEER_RETRY_INTERVAL
  | DialError.conn _ => DialOutcome.retryImmediately
  | DialError.other => DialOutcome.terminate

/-! ## Claims -/

/-- Claim C1.  The bounded range iterator is claimed to yield exactly the
stored pairs within `[from, to)` on a forward scan and `(to, from]` on a
reverse scan.  The code maps `Forward` to `Ordering::Less` and `Reverse` to
`Ordering::Greater` (`src/storage.rs:262-265`), so iteration stops as soon
as a key compares to the boundary on the NEAR side of the scan direction:
with the single stored key `[98]` strictly inside both ranges, a forward
scan from `[97]` bounded by `[99]` and a reverse scan from `[99]` bounded
by `[97]` both yield nothing. -/
theorem claim_C1_code_eval :
    rangeIter deserId [([98], [5])] [97] [99] Direction.forward = [] ∧
    rangeIter deserId [([98], [5])] [99] [97] Direction.reverse = [] ∧
    bytesCmp [97] [98] = Ordering.lt ∧ bytesCmp [98] [99] = Ordering.lt :=
  ⟨rfl, rfl, rfl, rfl⟩

/-- Claim C2, counterexample.  The claim quantifies over all `i64`
timestamps including negative ones; big-endian two's-complement encoding
puts `-1` above `0` lexicographically, so the composed key for `t1 = -1`
strictly exceeds the one for `t2 = 0`. -/
theorem claim_C2_counterexample :
    bytesCmp ([97] ++ [0] ++ i64ToBeBytes (-1)) ([97] ++ [0] ++ i64ToBeBytes 0) =
      Ordering.gt := by
  decide

/-- Claim C2, amended.  For nonnegative nanosecond timestamps `t1 < t2`
within the `i64` range, the composed keys `prefix\0t_be` are strictly
increasing in lexicographic byte order: chronological order equals
lexicographic order within a fixed prefix. -/
theorem claim_C2_amended (p : List Nat) (t1 t2 : Int) (h0 : 0 ≤ t1) (h12 : t1 < t2)
    (h2 : t2 < 2 ^ 63) :
    bytesCmp (p ++ [0] ++ i64ToBeBytes t1) (p ++ [0] ++ i64ToBeBytes t2) = Ordering.lt := by
  rw [bytesCmp_append_left]
  exact i64ToBeBytes_lt h0 h12 h2

/-- Witness for claim C2 (amended) at `p = [97]`, `t1 = 3`, `t2 = 5`. -/
theorem claim_C2_amended_witness :
    bytesCmp ([97] ++ [0] ++ i64ToBeBytes 3) ([97] ++ [0] ++ i64ToBeBytes 5) = Ordering.lt :=
  claim_C2_amended [97] 3 5 (by decide) (by decide) (by decide)

/-- Claim C4.  `handle_data` composes the storage key by kind exactly as
tabulated: generic log `sensor\0log-kind\0ts`; periodic time series
`series-id\0ts`; operational log `agent@sensor\0ts`; packet
`sensor\0request-ts(be8)\0packet-ts(be8)`; statistics
`sensor\0core-id(be)\0ts`; security log `security-kind\0ts` with the stored
body's source field replaced by the connection-derived sensor name; every
other kind `sensor\0ts` with the body stored unchanged. -/
theorem claim_C4 (source k sid ag sk ss pl : List Nat) (ts pts : Int) (core : Nat) :
    handleDataKey source ts (RecordData.log k pl) =
      source ++ [0] ++ k ++ [0] ++ i64ToBeBytes ts ∧
    handleDataKey source ts (RecordData.timeSeries sid pl) =
      sid ++ [0] ++ i64ToBeBytes ts ∧
    handleDataKey source ts (RecordData.opLog ag pl) =
      ag ++ [64] ++ source ++ [0] ++ i64ToBeBytes ts ∧
    handleDataKey source ts (RecordData.packet pts pl) =
      source ++ [0] ++ i64ToBeBytes ts ++ [0] ++ i64ToBeBytes pts ∧
    handleDataKey source ts (RecordData.statistics core pl) =
      source ++ [0] ++ beBytesNat 4 core ++ [0] ++ i64ToBeBytes ts ∧
    handleDataKey source ts (RecordData.secuLog sk ss pl) =
      sk ++ [0] ++ i64ToBeBytes ts ∧
    handleDataStored source (RecordData.secuLog sk ss pl) =
      RecordData.secuLog sk source pl ∧
    handleDataKey source ts (RecordData.plain pl) = source ++ [0] ++ i64ToBeBytes ts ∧
    handleDataStored source (RecordData.log k pl) = RecordData.log k pl ∧
    handleDataStored source (RecordData.plain pl) = RecordData.plain pl := by
  refine ⟨?_, ?_, ?_, ?_, ?_, ?_, rfl, ?_, rfl, rfl⟩ <;>
    simp [handleDataKey, storageKeyBuild, handleDataStored]

/-- Claim C6.  A received record with timestamp `-1` and body `channel done`
is acked immediately with that timestamp and the stream continues; the
state — store, publications, rotation counter and last timestamp — is left
exactly as it was, and nothing is flushed. -/
theorem claim_C6 (decode : List Nat → Except Nat RecordData) (hasNetworkKey : Bool)
    (source : List Nat) (st : HDState) :
    recvStep decode hasNetworkKey source st (-1) channelCloseMessage =
      { state := st, acks := [-1], flushes := 0, intervalReset := false, errored := false } := by
  simp [recvStep]

/-- Claim C7.  Processing `Connected(s, ts)` with `replay = false` puts `s`
into the live sources map; processing `Disconnected(s, ts)` with
`replay = false` removes `s` from the live sources map and from the
packet-connection map; and every event, replay or not, writes `(s, ts)` to
the persistent sources store. -/
theorem claim_C7 (st : SourcesState) (s : List Nat) (ts : Int) (conn : ConnState)
    (rep : Bool) :
    (checkSourcesConnStep st s ts ConnState.connected false).sources s = some ts ∧
    (checkSourcesConnStep st s ts ConnState.disconnected false).sources s = none ∧
    (checkSourcesConnStep st s ts ConnState.disconnected false).packetSources s = false ∧
    (checkSourcesConnStep st s ts conn rep).sourceStore s = some ts := by
  refine ⟨?_, ?_, ?_, ?_⟩
  · simp [checkSourcesConnStep]
  · simp [checkSourcesConnStep]
  · simp [checkSourcesConnStep]
  · cases conn <;> cases rep <;> simp [checkSourcesConnStep]

/-- Claim C8, counterexample.  The claim calls every dial failure other
than the four listed variants terminal; a dial failing with
`ConnectionError::VersionMismatch` falls through the inner `_ => {}` arm
and the connection loop runs again, so the task does not return. -/
theorem claim_C8_counterexample :
    clientDialErrorOutcome (DialError.conn ConnectionError.versionMismatch) =
      DialOutcome.retryImmediately ∧
    clientDialErrorOutcome (DialError.conn ConnectionError.versionMismatch) ≠
      DialOutcome.terminate := by
  decide

/-- Claim C8, amended.  A dial failing with connection-closed,
application-closed, reset or timed-out sleeps 5 seconds and retries; a dial
failing with any other transport `ConnectionError` retries immediately
without sleeping; only a failure that is not despatched as a
`ConnectionError` (connect or handshake errors) is terminal for the dial
task. -/
theorem claim_C8_amended :
    clientDialErrorOutcome (DialError.conn ConnectionError.connectionClosed) =
      DialOutcome.retryAfterSleep 5 ∧
    clientDialErrorOutcome (DialError.conn ConnectionError.applicationClosed) =
      DialOutcome.retryAfterSleep 5 ∧
    clientDialErrorOutcome (DialError.conn ConnectionError.reset) =
      DialOutcome.retryAfterSleep 5 ∧
    clientDialErrorOutcome (DialError.conn ConnectionError.timedOut) =
      DialOutcome.retryAfterSleep 5 ∧
    clientDialErrorOutcome (DialError.conn ConnectionError.versionMismatch) =
      DialOutcome.retryImmediately ∧
    clientDialErrorOutcome (DialError.conn ConnectionError.transportError) =
      DialOutcome.retryImmediately ∧
    clientDialErrorOutcome (DialError.conn ConnectionError.locallyClosed) =
      DialOutcome.retryImmediately ∧
    clientDialErrorOutcome DialError.other = DialOutcome.terminate := by
  decide

/-- Claim C3, counterexample.  The claim says an interval ack is emitted at
a 60-second tick only when a write is pending unacknowledged, never
repeating when no new unacked write exists.  The interval task never clears
`ack_time` after sending (`src/ingest.rs:764-774`), so after one stored
record two consecutive ticks each emit an ack of the same timestamp: the
trace `record(5), tick, tick` produces the acks `[5, 5]` where the claim
allows only the first. -/
theorem claim_C3_counterexample :
    (hdRun decodePlain false [] hdInit [HDEvent.recv 5 [1], HDEvent.tick, HDEvent.tick]).2 =
      [5, 5] := by
  decide

/-- Claim C3, amended.  Rotation trigger: a stored record that brings the
rotation counter to 1024 causes exactly one ack of that record's timestamp,
clears the counter, flushes the column family once and resets the interval
timer; below the threshold a stored record emits nothing and just advances
the counter and the last-seen timestamp.  Interval trigger: a 60-second
tick emits exactly one ack of the last-seen timestamp if and only if that
timestamp differs from the `NO_TIMESTAMP` sentinel (0), clearing the
rotation counter; the last-seen timestamp itself is not cleared, so further
ticks with no intervening write re-emit the same ack. -/
theorem claim_C3_amended (decode : List Nat → Except Nat RecordData) (nk : Bool)
    (source : List Nat) (st : HDState) (ts : Int) (body : List Nat) (r : RecordData)
    (hsent : ¬(ts = -1 ∧ body = channelCloseMessage))
    (hdec : decode body = Except.ok r) :
    (st.ackCnt + 1 = 1024 →
      (recvStep decode nk source st ts body).acks = [ts] ∧
      (recvStep decode nk source st ts body).state.ackCnt = 0 ∧
      (recvStep decode nk source st ts body).flushes = 1 ∧
      (recvStep decode nk source st ts body).intervalReset = true ∧
      (recvStep decode nk source st ts body).state.ackTime = ts) ∧
    (st.ackCnt + 1 < 1024 →
      (recvStep decode nk source st ts body).acks = [] ∧
      (recvStep decode nk source st ts body).state.ackCnt = st.ackCnt + 1 ∧
      (recvStep decode nk source st ts body).flushes = 0 ∧
      (recvStep decode nk source st ts body).intervalReset = false ∧
      (recvStep decode nk source st ts body).state.ackTime = ts) ∧
    ((tickStep st).acks = if st.ackTime = 0 then [] else [st.ackTime]) ∧
    ((tickStep st).state.ackCnt = if st.ackTime = 0 then st.ackCnt else 0) ∧
    ((tickStep st).state.ackTime = st.ackTime) ∧
    ((tickStep st).state.store = st.store) ∧
    ((tickStep st).flushes = 0) := by
  refine ⟨?_, ?_, ?_, ?_, ?_, ?_, ?_⟩
  · intro h
    have hm : (st.ackCnt + 1) % 65536 = 1024 := by omega
    simp [recvStep, if_neg hsent, hdec, hm]
  · intro h
    have hm : (st.ackCnt + 1) % 65536 = st.ackCnt + 1 := by omega
    have hnot : ¬(1024 ≤ (st.ackCnt + 1) % 65536) := by omega
    simp [recvStep, if_neg hsent, hdec, hm, hnot, show ¬(1023 ≤ st.ackCnt) by omega]
  · by_cases h0 : st.ackTime = 0 <;> simp [tickStep, h0]
  · by_cases h0 : st.ackTime = 0 <;> simp [tickStep, h0]
  · by_cases h0 : st.ackTime = 0 <;> simp [tickStep, h0]
  · by_cases h0 : st.ackTime = 0 <;> simp [tickStep, h0]
  · by_cases h0 : st.ackTime = 0 <;> simp [tickStep, h0]

/-- Witness for claim C3 (amended): with the counter at 1023, the next
stored record triggers the rotation ack. -/
theorem claim_C3_amended_witness :
    (recvStep decodePlain false [] { ackCnt := 1023, ackTime := 0, store := [], published := [] }
      9 [1]).acks = [9] := by
  have h := claim_C3_amended decodePlain false []
    { ackCnt := 1023, ackTime := 0, store := [], published := [] } 9 [1]
    (RecordData.plain [1]) (by decide) rfl
  exact (h.1 (by decide)).1

/-- Claim C5, counterexample.  The claim says the lower bound strictly
succeeds every key `p\0t'_be…` with `t' < t`.  For `t = 1` the bound equals
the bare key at `t' = 0` (the nanosecond before), and a negative `t'`
encodes above every nonnegative one, so the bound even precedes the key at
`t' = -1`. -/
theorem claim_C5_counterexample :
    bytesCmp (lower_bound_key [97] (some 1)) ([97] ++ [0] ++ i64ToBeBytes 0) = Ordering.eq ∧
    bytesCmp (lower_bound_key [97] (some 1)) ([97] ++ [0] ++ i64ToBeBytes (-1)) =
      Ordering.lt := by
  decide

/-- Claim C5, amended.  For every prefix `p` and representable instant `t`,
`lower_bound_key(p, Some(t))` lexicographically precedes every key of the
form `p\0t_be…`; and for nonnegative `t'` it succeeds every key of the form
`p\0t'_be…` when `t' < t - 1`, while at `t' = t - 1` it is exactly the bare
key `p\0(t-1)_be` (so it precedes continued keys of that instant rather
than succeeding them). -/
theorem claim_C5_amended (p s : List Nat) (t t' : Int) :
    (-(2 ^ 63) ≤ t → t < 2 ^ 63 →
      bytesCmp (lower_bound_key p (some t)) (p ++ [0] ++ i64ToBeBytes t ++ s) =
        Ordering.lt) ∧
    (0 ≤ t' → t' < t - 1 → t < 2 ^ 63 →
      bytesCmp (p ++ [0] ++ i64ToBeBytes t' ++ s) (lower_bound_key p (some t)) =
        Ordering.lt) ∧
    (0 ≤ t - 1 → t < 2 ^ 63 →
      lower_bound_key p (some t) = p ++ [0] ++ i64ToBeBytes (t - 1)) := by
  refine ⟨?_, ?_, ?_⟩
  · intro hlo hhi
    by_cases h1 : 1 ≤ t
    · rw [lower_bound_key_of_pos p h1 hhi, List.append_assoc (p ++ [0]),
        bytesCmp_append_left]
      exact bytesCmp_lt_append_right s (i64ToBeBytes_lt (by omega) (by omega) hhi)
    · rw [lower_bound_key_of_nonpos p (by omega) hlo]
      have hne : i64ToBeBytes t ++ s ≠ [] := by
        simp [i64ToBeBytes_ne_nil t]
      calc bytesCmp (p ++ [0]) (p ++ [0] ++ i64ToBeBytes t ++ s)
          = bytesCmp (p ++ [0]) ((p ++ [0]) ++ (i64ToBeBytes t ++ s)) := by
            rw [List.append_assoc (p ++ [0])]
        _ = Ordering.lt := bytesCmp_self_append (p ++ [0]) (i64ToBeBytes t ++ s) hne
  · intro h0 hlt hhi
    rw [lower_bound_key_of_pos p (by omega) hhi, List.append_assoc (p ++ [0]),
      bytesCmp_append_left]
    refine bytesCmp_lt_append_left s (i64ToBeBytes_lt h0 hlt (by omega)) ?_
    rw [i64ToBeBytes_length, i64ToBeBytes_length]
  · intro h0 hhi
    exact lower_bound_key_of_pos p (by omega) hhi

/-- Witness for claim C5 (amended) at `p = [97]`, `s = [7]`, `t = 5`,
`t' = 2`. -/
theorem claim_C5_amended_witness :
    bytesCmp (lower_bound_key [97] (some 5)) ([97] ++ [0] ++ i64ToBeBytes 5 ++ [7]) =
      Ordering.lt ∧
    bytesCmp ([97] ++ [0] ++ i64ToBeBytes 2 ++ [7]) (lower_bound_key [97] (some 5)) =
      Ordering.lt ∧
    lower_bound_key [97] (some 5) = [97] ++ [0] ++ i64ToBeBytes 4 := by
  have h := claim_C5_amended [97] [7] 5 2
  refine ⟨h.1 (by decide) (by decide), h.2.1 (by decide) (by decide) (by decide), ?_⟩
  have h3 := h.2.2 (by decide) (by decide)
  simpa using h3

/-- Claim C10.  Every item the bounded iterator yields is either `Ok` of a
stored key with exactly the deserialisation of its stored bytes, or an
`Err`: an engine read error is surfaced as an `Err` item without ending the
iteration and without any boundary check, a value that fails to deserialise
is likewise surfaced as an `Err` item with iteration continuing, and a
successfully read key on the boundary ends the iteration with no further
items and no error. -/
theorem claim_C10 (α : Type) (deser : List Nat → Except Nat α) (boundary : List Nat)
    (cond : Ordering) :
    (∀ stream k a, Except.ok (k, a) ∈ iterCollect deser boundary cond stream →
      ∃ v, Except.ok (k, v) ∈ stream ∧ deser v = Except.ok a) ∧
    (∀ e rest, iterCollect deser boundary cond (Except.error e :: rest) =
      Except.error e :: iterCollect deser boundary cond rest) ∧
    (∀ k v e rest, bytesCmp k boundary ≠ cond → deser v = Except.error e →
      iterCollect deser boundary cond (Except.ok (k, v) :: rest) =
        Except.error e :: iterCollect deser boundary cond rest) ∧
    (∀ k v a rest, bytesCmp k boundary ≠ cond → deser v = Except.ok a →
      iterCollect deser boundary cond (Except.ok (k, v) :: rest) =
        Except.ok (k, a) :: iterCollect deser boundary cond rest) ∧
    (∀ k v rest, bytesCmp k boundary = cond →
      iterCollect deser boundary cond (Except.ok (k, v) :: rest) = []) := by
  refine ⟨?_, ?_, ?_, ?_, ?_⟩
  · intro stream
    induction stream with
    | nil => intro k a h; simp [iterCollect] at h
    | cons head rest ih =>
      intro k a h
      match head with
      | Except.error e =>
        simp only [iterCollect, List.mem_cons] at h
        rcases h with h | h
        · exact absurd h (by simp)
        · obtain ⟨v, hv, hd⟩ := ih k a h
          exact ⟨v, List.mem_cons_of_mem _ hv, hd⟩
      | Except.ok (k', v') =>
        by_cases hb : bytesCmp k' boundary = cond
        · rw [iterCollect, if_pos hb] at h
          simp at h
        · rw [iterCollect, if_neg hb] at h
          rcases List.mem_cons.mp h with h | h
          · cases hd : deser v' with
            | ok a' =>
              rw [hd] at h
              simp at h
              refine ⟨v', ?_, ?_⟩
              · rw [h.1]
                exact List.mem_cons_self _ _
              · rw [hd, h.2]
            | error e =>
              rw [hd] at h
              simp at h
          · obtain ⟨v, hv, hdv⟩ := ih k a h
            exact ⟨v, List.mem_cons_of_mem _ hv, hdv⟩
  · intro e rest
    rfl
  · intro k v e rest hb hd
    rw [iterCollect, if_neg hb, hd]
  · intro k v a rest hb hd
    rw [iterCollect, if_neg hb, hd]
  · intro k v rest hb
    rw [iterCollect, if_pos hb]

/-- Deserialiser used to witness claim C10: accepts only the byte string
`[2]`. -/
def deserC10 : List Nat → Except Nat Nat :=
  fun v => if v = [2] then Except.ok 7 else Except.error 3

/-- Witness for claim C10: past the boundary check, a value that fails to
deserialise is yielded as an `Err` item and the iteration continues to the
end of the stream. -/
theorem claim_C10_witness :
    iterCollect deserC10 [9] Ordering.lt [Except.ok ([20], [5])] = [Except.error 3] := by
  have h := (claim_C10 Nat deserC10 [9] Ordering.lt).2.2.1 [20] [5] 3 []
    (by decide) (by rfl)
  simpa [iterCollect] using h

/-- A key survives a fold of per-target deletes exactly when it was present
and every target either failed to delete or is a different key. -/
theorem mem_foldl_deleteEach (fails : List Nat → Bool) (targets : List (List Nat))
    (init : List (List Nat)) (k : List Nat) :
    k ∈ targets.foldl
        (fun acc t => if fails t then acc else acc.filter (fun x => !(x == t))) init ↔
      k ∈ init ∧ ∀ t ∈ targets, fails t = true ∨ k ≠ t := by
  induction targets generalizing init with
  | nil => simp
  | cons t ts ih =>
    simp only [List.foldl_cons]
    by_cases hf : fails t
    · rw [if_pos hf, ih]
      simp [hf]
    · rw [if_neg hf, ih]
      simp only [List.mem_filter, List.mem_cons, Bool.not_eq_true', beq_eq_false_iff_ne]
      constructor
      · rintro ⟨⟨hk, hne⟩, hall⟩
        refine ⟨hk, ?_⟩
        intro x hx
        rcases hx with rfl | hx
        · exact Or.inr hne
        · exact hall x hx
      · rintro ⟨hk, hall⟩
        have hne : k ≠ t := by
          rcases hall t (Or.inl rfl) with hft | hne
          · exact absurd hft (by simpa using hf)
          · exact hne
        exact ⟨⟨hk, hne⟩, fun x hx => hall x (Or.inr hx)⟩

/-- Characterisation of one sensor's pass over the log store: a key remains
exactly when it was present and it is not a non-failing stale key of that
sensor. -/
theorem logStoreSweep_mem (fails : List Nat → Bool) (logKeys : List (List Nat))
    (source : List Nat) (cutoff : Int) (k : List Nat) :
    k ∈ logStoreSweep fails logKeys source cutoff ↔
      k ∈ logKeys ∧ (fails k = true ∨
        ¬(source.isPrefixOf k ∧ i64FromBeBytes (k.drop (k.length - 8)) < cutoff)) := by
  unfold logStoreSweep
  rw [mem_foldl_deleteEach]
  constructor
  · rintro ⟨hk, hall⟩
    refine ⟨hk, ?_⟩
    by_cases hf : fails k
    · exact Or.inl hf
    · right
      rintro ⟨hp, hc⟩
      have hmem : k ∈ (logKeys.filter (fun x => source.isPrefixOf x)).filter
          (fun x => decide (i64FromBeBytes (x.drop (x.length - 8)) < cutoff)) := by
        simp [List.mem_filter, hk, hp, hc]
      rcases hall k hmem with hft | hne
      · exact absurd hft (by simpa using hf)
      · exact hne rfl
  · rintro ⟨hk, hcond⟩
    refine ⟨hk, ?_⟩
    intro t ht
    by_cases hkt : k = t
    · subst hkt
      rcases hcond with hf | hnc
      · exact Or.inl hf
      · exfalso
        simp only [List.mem_filter, decide_eq_true_eq] at ht
        exact hnc ⟨ht.1.2, ht.2⟩
    · exact Or.inr hkt

/-- Characterisation of the full log-store sweep tick over every sensor. -/
theorem retainLogSweep_mem (fails : List Nat → Bool) (logKeys : List (List Nat))
    (sources : List (List Nat)) (cutoff : Int) (k : List Nat) :
    k ∈ retainLogSweep fails logKeys sources cutoff ↔
      k ∈ logKeys ∧ ∀ s ∈ sources, fails k = true ∨
        ¬(s.isPrefixOf k ∧ i64FromBeBytes (k.drop (k.length - 8)) < cutoff) := by
  unfold retainLogSweep
  induction sources generalizing logKeys with
  | nil => simp
  | cons s ss ih =>
    simp only [List.foldl_cons]
    rw [ih, logStoreSweep_mem]
    constructor
    · rintro ⟨⟨hk, hs⟩, hall⟩
      refine ⟨hk, ?_⟩
      intro x hx
      rcases List.mem_cons.mp hx with rfl | hx
      · exact hs
      · exact hall x hx
    · rintro ⟨hk, hall⟩
      exact ⟨⟨hk, hall s (List.mem_cons_self s ss)⟩,
        fun x hx => hall x (List.mem_cons_of_mem s hx)⟩

/-- Membership after one RocksDB range delete. -/
theorem deleteRange_mem (keys : List (List Nat)) (lo hi k : List Nat) :
    k ∈ deleteRange keys lo hi ↔
      k ∈ keys ∧ ¬(bytesCmp k lo ≠ Ordering.lt ∧ bytesCmp k hi = Ordering.lt) := by
  simp only [deleteRange, List.mem_filter, Bool.not_eq_true', decide_eq_false_iff_not]

/-- Characterisation of the range-delete sweep tick over every sensor: a
key remains exactly when, for every sensor, either that sensor's range
delete failed or the key lies outside `[sensor\0 61s, sensor\0 cutoff)`. -/
theorem retainRangeSweep_mem (rangeFails : List Nat → Bool) (keys : List (List Nat))
    (sources : List (List Nat)) (cutoff : Int) (k : List Nat) :
    k ∈ retainRangeSweep rangeFails keys sources cutoff ↔
      k ∈ keys ∧ ∀ s ∈ sources, rangeFails s = true ∨
        ¬(bytesCmp k (retainFrom s) ≠ Ordering.lt ∧
          bytesCmp k (retainTo s cutoff) = Ordering.lt) := by
  unfold retainRangeSweep
  induction sources generalizing keys with
  | nil => simp
  | cons s ss ih =>
    simp only [List.foldl_cons]
    by_cases hf : rangeFails s
    · rw [if_pos hf, ih]
      constructor
      · rintro ⟨hk, hall⟩
        refine ⟨hk, ?_⟩
        intro x hx
        rcases List.mem_cons.mp hx with rfl | hx
        · exact Or.inl hf
        · exact hall x hx
      · rintro ⟨hk, hall⟩
        exact ⟨hk, fun x hx => hall x (List.mem_cons_of_mem s hx)⟩
    · rw [if_neg hf, ih, deleteRange_mem]
      constructor
      · rintro ⟨⟨hk, hs⟩, hall⟩
        refine ⟨hk, ?_⟩
        intro x hx
        rcases List.mem_cons.mp hx with rfl | hx
        · exact Or.inr hs
        · exact hall x hx
      · rintro ⟨hk, hall⟩
        refine ⟨⟨hk, ?_⟩, fun x hx => hall x (List.mem_cons_of_mem s hx)⟩
        rcases hall s (List.mem_cons_self s ss) with hft | hs
        · exact absurd hft (by simpa using hf)
        · exact hs

/-- Claim C9.  On a sweep tick, for keys at least 8 bytes long (every real
stored key is), a generic-log key is deleted exactly when some swept sensor
is a byte prefix of it and its trailing 8-byte big-endian timestamp is
strictly below the cutoff; under an arbitrary failure oracle a failing key
delete only keeps that key, every other key and sensor still being
processed, and likewise a failing range delete only skips that one range,
the sweep never terminating early. -/
theorem claim_C9 (fails rangeFails : List Nat → Bool)
    (logKeys storeKeys sources : List (List Nat)) (cutoff : Int) (k : List Nat)
    (_hlen : ∀ x ∈ logKeys, 8 ≤ x.length) :
    (k ∈ retainLogSweep (fun _ => false) logKeys sources cutoff ↔
      k ∈ logKeys ∧ ∀ s ∈ sources,
        ¬(s.isPrefixOf k ∧ i64FromBeBytes (k.drop (k.length - 8)) < cutoff)) ∧
    (k ∈ retainLogSweep fails logKeys sources cutoff ↔
      k ∈ logKeys ∧ ∀ s ∈ sources, fails k = true ∨
        ¬(s.isPrefixOf k ∧ i64FromBeBytes (k.drop (k.length - 8)) < cutoff)) ∧
    (k ∈ retainRangeSweep rangeFails storeKeys sources cutoff ↔
      k ∈ storeKeys ∧ ∀ s ∈ sources, rangeFails s = true ∨
        ¬(bytesCmp k (retainFrom s) ≠ Ordering.lt ∧
          bytesCmp k (retainTo s cutoff) = Ordering.lt)) := by
  refine ⟨?_, retainLogSweep_mem fails logKeys sources cutoff k,
    retainRangeSweep_mem rangeFails storeKeys sources cutoff k⟩
  rw [retainLogSweep_mem]
  simp

/-- Witness for claim C9: a 9-byte key of another sensor survives the sweep
for sensor `[97]` with cutoff 100. -/
theorem claim_C9_witness :
    [98, 0, 0, 0, 0, 0, 0, 0, 9] ∈
      retainLogSweep (fun _ => false) [[98, 0, 0, 0, 0, 0, 0, 0, 9]] [[97]] 100 := by
  have h := claim_C9 (fun _ => false) (fun _ => false) [[98, 0, 0, 0, 0, 0, 0, 0, 9]] []
    [[97]] 100 [98, 0, 0, 0, 0, 0, 0, 0, 9] (by decide)
  exact h.1.mpr (by decide)

end Giganto
